import Mathlib

/-!
Verification of the grouping and concatenation-orchestration core of the
gpmerger tool (GoPro chaptered-video merger).

The development shallowly embeds the Python source:

* `filetools.py` — `parse_filename`, `crawl`, `accumulate_filenumberwise`
  and the `FileInfo` record;
* `concattools.py` — the `ConcatBackend` enumeration, the two backend
  wrappers and the `concatenate_bulk` orchestrator;
* `gpmerger.py` — the backend-selection step of `main`.

External-process invocations (mp4merge / ffmpeg) are modelled as an abstract
filesystem effect of type `Exec`; the filesystem itself is an association
list from path strings to file contents in which later writes shadow earlier
entries. Directories, wall-clock timing and log/warning diagnostics are not
observable to any of the verified properties and are left out of the state.
-/

/-- Embedding of the `FileInfo` dataclass from `filetools.py`.
The Python field `prefix` is called `pfix` here because `prefix` is not a
usable identifier in Lean; `path` defaults to the empty string, standing in
for the dataclass default `None`.  The lazily cached `size` attribute is a
filesystem read that none of the verified properties observe. -/
structure FileInfo where
  pfix : String
  codec : String
  chapter : String
  number : String
  suffix : String
  path : String := ""
  deriving DecidableEq, Repr

/-- Embedding of `parse_filename` from `filetools.py`.  The Python statement
`prefix, codec, *stem = name` raises `ValueError` when the name has fewer
than two characters; this is modelled by returning `none`.  Otherwise
`chapter = stem[0:2]`, `number = stem[2:6]`, `suffix = stem[6:]` and the
populated record is returned.  The `warnings.warn` calls on unexpected
marker values are non-fatal diagnostics that do not affect the returned
record and are not modelled. -/
def parse_filename (name : String) : Option FileInfo :=
  match name.toList with
  | p :: c :: stem =>
    some { pfix := String.mk [p], codec := String.mk [c],
           chapter := String.mk (stem.take 2),
           number := String.mk ((stem.drop 2).take 4),
           suffix := String.mk (stem.drop 6) }
  | _ => none

/-- Evaluation of `parse_filename` on a name whose character list starts
with at least two characters. -/
theorem parse_filename_cons (p c : Char) (stem : List Char) (name : String)
    (hm : name.toList = p :: c :: stem) :
    parse_filename name
      = some { pfix := String.mk [p], codec := String.mk [c],
               chapter := String.mk (stem.take 2),
               number := String.mk ((stem.drop 2).take 4),
               suffix := String.mk (stem.drop 6) } := by
  have hd : name.data = p :: c :: stem := hm
  simp [parse_filename, hd]

/-- C2: for every filename of length at least 8 following the fixed-position
scheme, `parse_filename` succeeds and returns a record whose `chapter` field
is exactly characters 3–4 of the name (0-based slice `name[2:4]`) and whose
`number` field is exactly characters 5–8 (slice `name[4:8]`): both fields
are recovered losslessly from the original string, with their expected
lengths 2 and 4. -/
theorem parse_filename_recovers_fields (name : String)
    (h : 8 ≤ name.toList.length) :
    ∃ r : FileInfo, parse_filename name = some r ∧
      r.chapter = String.mk ((name.toList.drop 2).take 2) ∧
      r.number = String.mk ((name.toList.drop 4).take 4) ∧
      r.chapter.toList.length = 2 ∧
      r.number.toList.length = 4 := by
  match hm : name.toList with
  | [] => rw [hm] at h; simp at h
  | [p] => rw [hm] at h; simp at h
  | p :: c :: stem =>
    rw [hm] at h
    simp only [List.length_cons] at h
    refine ⟨_, parse_filename_cons p c stem name hm, ?_, ?_, ?_, ?_⟩
    · simp
    · simp
    · simp; omega
    · simp; omega

/-- Witness for C2 at the concrete GoPro filename `GH010042.mp4`. -/
theorem parse_filename_recovers_fields_witness :
    8 ≤ "GH010042.mp4".toList.length ∧
    ∃ r : FileInfo, parse_filename "GH010042.mp4" = some r ∧
      r.chapter = String.mk (("GH010042.mp4".toList.drop 2).take 2) ∧
      r.number = String.mk (("GH010042.mp4".toList.drop 4).take 4) ∧
      r.chapter.toList.length = 2 ∧
      r.number.toList.length = 4 :=
  ⟨by decide, parse_filename_recovers_fields "GH010042.mp4" (by decide)⟩

/-- C6 counterexample: the claim that `parse_filename` never fails on names
shorter than 8 characters is false.  The Python unpacking
`prefix, codec, *stem = name` raises `ValueError` on any name with fewer
than two characters, e.g. `"G"`; in the embedding `parse_filename` returns
`none` there instead of a record. -/
theorem parse_filename_short_name_cex :
    ¬ (∀ name : String, name.toList.length < 8 →
        (parse_filename name).isSome = true) := by
  intro h
  have := h "G" (by decide)
  simp [parse_filename] at this

/-- C6 amended: for every name with at least 2 but fewer than 8 characters,
`parse_filename` does not fail: it returns a record whose `chapter`,
`number` and `suffix` fields are the (possibly empty) partial substrings
available from the name; names with fewer than 2 characters fail the
initial unpacking instead. -/
theorem parse_filename_short_name_lenient (name : String)
    (h2 : 2 ≤ name.toList.length) (h8 : name.toList.length < 8) :
    ∃ r : FileInfo, parse_filename name = some r ∧
      r.chapter = String.mk ((name.toList.drop 2).take 2) ∧
      r.number = String.mk ((name.toList.drop 4).take 4) ∧
      r.suffix = "" := by
  match hm : name.toList with
  | [] => rw [hm] at h2; simp at h2
  | [p] => rw [hm] at h2; simp at h2
  | p :: c :: stem =>
    rw [hm] at h8
    simp only [List.length_cons] at h8
    refine ⟨_, parse_filename_cons p c stem name hm, ?_, ?_, ?_⟩
    · simp
    · simp
    · have : stem.drop 6 = [] := List.drop_eq_nil_of_le (by omega)
      simp [this]

/-- Witness for the amended C6 at the 6-character name `GH0100`. -/
theorem parse_filename_short_name_lenient_witness :
    (2 ≤ "GH0100".toList.length ∧ "GH0100".toList.length < 8) ∧
    ∃ r : FileInfo, parse_filename "GH0100" = some r ∧
      r.chapter = String.mk (("GH0100".toList.drop 2).take 2) ∧
      r.number = String.mk (("GH0100".toList.drop 4).take 4) ∧
      r.suffix = "" :=
  ⟨⟨by decide, by decide⟩,
   parse_filename_short_name_lenient "GH0100" (by decide) (by decide)⟩

/-- Value accumulator for the digit part of a Python integer literal after
its first digit.  The CPython grammar is `digit ((underscore)? digit)*`:
a single underscore is allowed between two digits. -/
def pyDigitsAux (acc : Nat) : List Char → Option Nat
  | [] => some acc
  | '_' :: c :: cs =>
    if c.isDigit then pyDigitsAux (10 * acc + (c.toNat - 48)) cs else none
  | c :: cs =>
    if c.isDigit then pyDigitsAux (10 * acc + (c.toNat - 48)) cs else none

/-- Digit part of a Python integer literal: at least one leading digit. -/
def pyDigitsStart : List Char → Option Nat
  | [] => none
  | c :: cs => if c.isDigit then pyDigitsAux (c.toNat - 48) cs else none

/-- Model of the Python built-in `int(s)` on ASCII strings, as used for the
sort key `int(elem.chapter)` in `accumulate_filenumberwise`: surrounding
whitespace is stripped, an optional sign is followed by a digit sequence
with optional single underscores between digits; anything else raises
`ValueError`, modelled as `none`. -/
def pyInt (s : String) : Option Int :=
  let cs := ((s.toList.dropWhile Char.isWhitespace).reverse.dropWhile
      Char.isWhitespace).reverse
  match cs with
  | '+' :: rest => (pyDigitsStart rest).map Int.ofNat
  | '-' :: rest => (pyDigitsStart rest).map (fun n => -(Int.ofNat n))
  | rest => (pyDigitsStart rest).map Int.ofNat

/-- Integer sort key `int(elem.chapter)` of a file record.  Inside
`accumulate_filenumberwise` all chapters are checked to parse, so the
default value of `getD` is never reached there. -/
def chapterKey (fi : FileInfo) : Int := (pyInt fi.chapter).getD 0

/-- Comparison used to sort a group's chapter list. -/
def chapterLE (a b : FileInfo) : Prop := chapterKey a ≤ chapterKey b

instance : DecidableRel chapterLE :=
  fun a b => Int.decLe (chapterKey a) (chapterKey b)

instance : IsTotal FileInfo chapterLE := ⟨fun _ _ => Int.le_total _ _⟩

instance : IsTrans FileInfo chapterLE := ⟨fun _ _ _ hab hbc => le_trans hab hbc⟩

/-- Keys of a Python `dict` built by appending: first-seen insertion order,
no duplicates. -/
def insertKeyOnce (ks : List String) (k : String) : List String :=
  if k ∈ ks then ks else ks ++ [k]

/-- Recording numbers in the order the `defaultdict` of
`accumulate_filenumberwise` first sees them. -/
def groupKeys (fis : List FileInfo) : List String :=
  fis.foldl (fun ks fi => insertKeyOnce ks fi.number) []

/-- Embedding of `accumulate_filenumberwise` from `filetools.py`: records
are appended to a `defaultdict` keyed by their `number` in input order, so
each group's pre-sort list is the input filtered to that number; then each
group is sorted in place by `int(elem.chapter)` with Python's stable
`list.sort`, embedded as the stable `List.insertionSort`.  If some chapter
fails to parse as an integer, `list.sort` raises `ValueError`, modelled by
returning `none`. -/
def accumulate_filenumberwise (fis : List FileInfo) :
    Option (List (String × List FileInfo)) :=
  if fis.all (fun fi => (pyInt fi.chapter).isSome) then
    some ((groupKeys fis).map (fun k =>
      (k, List.insertionSort chapterLE
        (fis.filter (fun fi => decide (fi.number = k))))))
  else none

/-- Inserting a record whose key equals `c` into a list places it before
every record of the same key already present, and the records it moves past
all have keys below `c`: on the `c`-filtered view it lands exactly at the
front. -/
theorem filter_orderedInsert_key_eq (c : Int) (a : FileInfo)
    (ha : chapterKey a = c) (l : List FileInfo) :
    (List.orderedInsert chapterLE a l).filter
        (fun fi => decide (chapterKey fi = c))
      = a :: l.filter (fun fi => decide (chapterKey fi = c)) := by
  induction l with
  | nil => simp [List.orderedInsert, ha]
  | cons b l ih =>
    by_cases h : chapterLE a b
    · simp [List.orderedInsert, h, ha]
    · have hb : ¬ (chapterKey b = c) := by
        simp only [chapterLE, ha] at h
        omega
      simp [List.orderedInsert, h, hb, ih]

/-- Inserting a record whose key differs from `c` leaves the `c`-filtered
view of the list unchanged. -/
theorem filter_orderedInsert_key_ne (c : Int) (a : FileInfo)
    (ha : ¬ (chapterKey a = c)) (l : List FileInfo) :
    (List.orderedInsert chapterLE a l).filter
        (fun fi => decide (chapterKey fi = c))
      = l.filter (fun fi => decide (chapterKey fi = c)) := by
  induction l with
  | nil => simp [List.orderedInsert, ha]
  | cons b l ih =>
    by_cases h : chapterLE a b
    · simp [List.orderedInsert, h, ha]
    · simp [List.orderedInsert, h, List.filter_cons, ih]

/-- Stability of the embedded sort: restricted to any single key value, the
sorted list coincides with the input, so records with equal chapter keys
keep their original relative order. -/
theorem filter_insertionSort_key (c : Int) (l : List FileInfo) :
    (List.insertionSort chapterLE l).filter
        (fun fi => decide (chapterKey fi = c))
      = l.filter (fun fi => decide (chapterKey fi = c)) := by
  induction l with
  | nil => simp
  | cons b l ih =>
    by_cases hb : chapterKey b = c
    · simp [List.insertionSort, filter_orderedInsert_key_eq c b hb, hb, ih]
    · simp [List.insertionSort, filter_orderedInsert_key_ne c b hb, hb, ih]

/-- C1: whenever `accumulate_filenumberwise` succeeds, every member of each
produced group carries the group's key as its `number`; each group is the
permutation of exactly the input records with that number; the group is
sorted non-decreasingly by the integer value of `chapter`; and for every
key value `c` the members with chapter key `c` appear in their original
input order (stable tie-break). -/
theorem accumulate_groups_correct (fis : List FileInfo)
    (gs : List (String × List FileInfo))
    (h : accumulate_filenumberwise fis = some gs) :
    ∀ g ∈ gs,
      (∀ fi ∈ g.2, fi.number = g.1) ∧
      g.2.Pairwise (fun a b => chapterKey a ≤ chapterKey b) ∧
      g.2.Perm (fis.filter (fun fi => decide (fi.number = g.1))) ∧
      (∀ c : Int, g.2.filter (fun fi => decide (chapterKey fi = c))
        = fis.filter (fun fi =>
            decide (fi.number = g.1) && decide (chapterKey fi = c))) := by
  unfold accumulate_filenumberwise at h
  split at h
  case isFalse => exact Option.noConfusion h
  case isTrue hall =>
    injection h with h
    subst h
    intro g hg
    simp only [List.mem_map] at hg
    obtain ⟨k, hk, rfl⟩ := hg
    refine ⟨?_, ?_, ?_, ?_⟩
    · intro fi hfi
      have hmem : fi ∈ fis.filter (fun fi => decide (fi.number = k)) :=
        (List.perm_insertionSort chapterLE _).mem_iff.mp hfi
      have := List.of_mem_filter hmem
      simpa using this
    · exact List.sorted_insertionSort chapterLE _
    · exact List.perm_insertionSort chapterLE _
    · intro c
      rw [filter_insertionSort_key c, List.filter_filter]
      refine List.filter_congr ?_
      intro fi _
      simp [Bool.and_comm]

/-- Witness for C1: four records, two sharing recording number `0042` with
a duplicated chapter key `01` (distinguished by `path`), one with number
`0099`; the tie keeps input order. -/
theorem accumulate_groups_correct_witness :
    accumulate_filenumberwise
        [{ pfix := "G", codec := "H", chapter := "02", number := "0042",
           suffix := ".MP4", path := "GH020042.MP4" },
         { pfix := "G", codec := "H", chapter := "01", number := "0042",
           suffix := ".MP4", path := "GH010042.MP4" },
         { pfix := "G", codec := "X", chapter := "01", number := "0042",
           suffix := ".MP4", path := "GX010042.MP4" },
         { pfix := "G", codec := "H", chapter := "01", number := "0099",
           suffix := ".MP4", path := "GH010099.MP4" }]
      = some
        [("0042",
          [{ pfix := "G", codec := "H", chapter := "01", number := "0042",
             suffix := ".MP4", path := "GH010042.MP4" },
           { pfix := "G", codec := "X", chapter := "01", number := "0042",
             suffix := ".MP4", path := "GX010042.MP4" },
           { pfix := "G", codec := "H", chapter := "02", number := "0042",
             suffix := ".MP4", path := "GH020042.MP4" }]),
         ("0099",
          [{ pfix := "G", codec := "H", chapter := "01", number := "0099",
             suffix := ".MP4", path := "GH010099.MP4" }])] ∧
    ∀ g ∈ [("0042",
          [{ pfix := "G", codec := "H", chapter := "01", number := "0042",
             suffix := ".MP4", path := "GH010042.MP4" },
           { pfix := "G", codec := "X", chapter := "01", number := "0042",
             suffix := ".MP4", path := "GX010042.MP4" },
           { pfix := "G", codec := "H", chapter := "02", number := "0042",
             suffix := ".MP4", path := "GH020042.MP4" }]),
         ("0099",
          [{ pfix := "G", codec := "H", chapter := "01", number := "0099",
             suffix := ".MP4", path := "GH010099.MP4" }])],
      (∀ fi ∈ g.2, fi.number = g.1) ∧
      g.2.Pairwise (fun a b => chapterKey a ≤ chapterKey b) ∧
      g.2.Perm ([{ pfix := "G", codec := "H", chapter := "02",
                   number := "0042", suffix := ".MP4",
                   path := "GH020042.MP4" },
                 { pfix := "G", codec := "H", chapter := "01",
                   number := "0042", suffix := ".MP4",
                   path := "GH010042.MP4" },
                 { pfix := "G", codec := "X", chapter := "01",
                   number := "0042", suffix := ".MP4",
                   path := "GX010042.MP4" },
                 { pfix := "G", codec := "H", chapter := "01",
                   number := "0099", suffix := ".MP4",
                   path := "GH010099.MP4" }].filter
        (fun fi => decide (fi.number = g.1))) ∧
      (∀ c : Int, g.2.filter (fun fi => decide (chapterKey fi = c))
        = [{ pfix := "G", codec := "H", chapter := "02", number := "0042",
             suffix := ".MP4", path := "GH020042.MP4" },
           { pfix := "G", codec := "H", chapter := "01", number := "0042",
             suffix := ".MP4", path := "GH010042.MP4" },
           { pfix := "G", codec := "X", chapter := "01", number := "0042",
             suffix := ".MP4", path := "GX010042.MP4" },
           { pfix := "G", codec := "H", chapter := "01", number := "0099",
             suffix := ".MP4", path := "GH010099.MP4" }].filter
          (fun fi =>
            decide (fi.number = g.1) && decide (chapterKey fi = c))) :=
  ⟨by decide, accumulate_groups_correct _ _ (by decide)⟩

/-- A directory entry as observed by `crawl`: its final path component and
whether `Path.is_file()` holds (subdirectories and other non-file entries
report `false`). -/
structure DirEntry where
  name : String
  isFile : Bool
  deriving DecidableEq, Repr

/-- Recognized video extensions (`VIDEO_SUFFIXES` in `filetools.py`). -/
def VIDEO_SUFFIXES : List String := [".mp4"]

/-- Recognized thumbnail extensions (`THUMBNAIL_SUFFIXES` in
`filetools.py`). -/
def THUMBNAIL_SUFFIXES : List String := [".thm"]

/-- Index of the last occurrence of a character in a list, if any. -/
def rfindIdx (c : Char) (cs : List Char) : Option Nat :=
  (cs.reverse.findIdx? (fun x => decide (x = c))).map
    (fun j => cs.length - 1 - j)

/-- Model of `pathlib.PurePath.suffix` on a path's final component: the
substring from the last dot onward, provided that dot is neither the first
nor the last character; otherwise the empty string. -/
def pySuffix (name : String) : String :=
  let cs := name.toList
  match rfindIdx '.' cs with
  | some i => if 0 < i ∧ i < cs.length - 1 then String.mk (cs.drop i) else ""
  | none => ""

/-- Model of `str.lower()` on ASCII strings. -/
def pyLower (s : String) : String := String.mk (s.toList.map Char.toLower)

/-- The three categories `crawl` sorts entries into. -/
inductive CrawlCategory
  | video
  | thumbnail
  | unrecognized
  deriving DecidableEq, Repr

/-- Dictionary key used by `crawl` for each category. -/
def categoryName : CrawlCategory → String
  | .video => "video"
  | .thumbnail => "thumbnail"
  | .unrecognized => "unrecognized"

/-- Classification of one directory entry, mirroring the branch structure of
the loop body of `crawl`: non-files are unrecognized; otherwise the
lower-cased suffix is looked up in the video set, then in the thumbnail
set; everything else is unrecognized. -/
def classify (e : DirEntry) : CrawlCategory :=
  if e.isFile = false then .unrecognized
  else if pyLower (pySuffix e.name) ∈ VIDEO_SUFFIXES then .video
  else if pyLower (pySuffix e.name) ∈ THUMBNAIL_SUFFIXES then .thumbnail
  else .unrecognized

/-- Association-list update preserving first-insertion key order, used to
model a Python `dict`. -/
def assocSet {α : Type} : List (String × α) → String → α → List (String × α)
  | [], k, v => [(k, v)]
  | (k', v') :: rest, k, v =>
    if k' = k then (k, v) :: rest else (k', v') :: assocSet rest k v

/-- Association-list lookup used to model a Python `dict`. -/
def assocGet {α : Type} : List (String × α) → String → Option α
  | [], _ => none
  | (k', v) :: rest, k => if k' = k then some v else assocGet rest k

/-- Model of `collections.defaultdict(list)` with string keys and lists of
path strings as values: a missing key reads as the empty list. -/
structure DefaultDictSL where
  entries : List (String × List String)
  deriving DecidableEq, Repr

/-- Reading `d[k]` from a `defaultdict(list)` never fails: a missing key
yields the empty list. -/
def DefaultDictSL.get (d : DefaultDictSL) (k : String) : List String :=
  (assocGet d.entries k).getD []

/-- The statement `d[k].append(v)` on a `defaultdict(list)`. -/
def DefaultDictSL.append1 (d : DefaultDictSL) (k v : String) : DefaultDictSL :=
  ⟨assocSet d.entries k (d.get k ++ [v])⟩

/-- Embedding of `crawl` from `filetools.py`: every entry of the directory
is appended to the `defaultdict` list of its category.  The summary counts
are only logged and do not affect the returned mapping. -/
def crawl (entries : List DirEntry) : DefaultDictSL :=
  entries.foldl (fun d e => d.append1 (categoryName (classify e)) e.name) ⟨[]⟩

theorem assocGet_assocSet_eq {α : Type} (l : List (String × α)) (k : String)
    (v : α) : assocGet (assocSet l k v) k = some v := by
  induction l with
  | nil => simp [assocSet, assocGet]
  | cons p rest ih =>
    by_cases h : p.1 = k
    · simp [assocSet, assocGet, h]
    · simp [assocSet, assocGet, h, ih]

theorem assocGet_assocSet_ne {α : Type} (l : List (String × α))
    (k k' : String) (v : α) (hne : k' ≠ k) :
    assocGet (assocSet l k' v) k = assocGet l k := by
  induction l with
  | nil => simp [assocSet, assocGet, hne]
  | cons p rest ih =>
    by_cases h : p.1 = k'
    · simp [assocSet, assocGet, h, hne]
    · by_cases h2 : p.1 = k
      · simp [assocSet, assocGet, h, h2, Ne.symm hne]
      · simp [assocSet, assocGet, h, h2, ih]

theorem DefaultDictSL.get_append1_eq (d : DefaultDictSL) (k v : String) :
    (d.append1 k v).get k = d.get k ++ [v] := by
  simp [DefaultDictSL.get, DefaultDictSL.append1, assocGet_assocSet_eq]

theorem DefaultDictSL.get_append1_ne (d : DefaultDictSL) (k k' v : String)
    (hne : k' ≠ k) : (d.append1 k' v).get k = d.get k := by
  simp [DefaultDictSL.get, DefaultDictSL.append1, assocGet_assocSet_ne _ _ _ _ hne]

theorem crawl_foldl_get (entries : List DirEntry) (d : DefaultDictSL)
    (k : String) :
    (entries.foldl
        (fun d e => d.append1 (categoryName (classify e)) e.name) d).get k
      = d.get k
        ++ (entries.filter
              (fun e => decide (categoryName (classify e) = k))).map
            DirEntry.name := by
  induction entries generalizing d with
  | nil => simp
  | cons e rest ih =>
    by_cases h : categoryName (classify e) = k
    · simp only [List.foldl_cons, List.filter_cons]
      rw [ih, h, DefaultDictSL.get_append1_eq]
      simp [h]
    · simp only [List.foldl_cons, List.filter_cons]
      rw [ih, DefaultDictSL.get_append1_ne _ _ _ _ h]
      simp [h]

theorem categoryName_inj (a b : CrawlCategory)
    (h : categoryName a = categoryName b) : a = b := by
  cases a <;> cases b <;> first | rfl | exact absurd h (by decide)

/-- C8: `crawl` classifies a directory entry as video exactly when it is a
file whose lower-cased extension is in the video-extension set, as
thumbnail exactly when it is a file whose lower-cased extension is in the
thumbnail-extension set, and as unrecognized otherwise (including non-file
entries); each category's list in the returned mapping holds exactly the
names of the entries so classified, in directory order, so every entry
lands in exactly one category. -/
theorem crawl_classifies_entries (entries : List DirEntry) :
    (∀ e : DirEntry,
      (classify e = CrawlCategory.video ↔
        (e.isFile = true ∧ pyLower (pySuffix e.name) ∈ VIDEO_SUFFIXES)) ∧
      (classify e = CrawlCategory.thumbnail ↔
        (e.isFile = true ∧ pyLower (pySuffix e.name) ∈ THUMBNAIL_SUFFIXES)) ∧
      (classify e = CrawlCategory.unrecognized ↔
        (¬ (e.isFile = true ∧ pyLower (pySuffix e.name) ∈ VIDEO_SUFFIXES) ∧
         ¬ (e.isFile = true ∧
              pyLower (pySuffix e.name) ∈ THUMBNAIL_SUFFIXES)))) ∧
    (∀ c : CrawlCategory,
      (crawl entries).get (categoryName c)
        = (entries.filter (fun e => decide (classify e = c))).map
            DirEntry.name) := by
  constructor
  · intro e
    by_cases hf : e.isFile = false
    · simp [classify, hf]
    · have hf' : e.isFile = true := by simpa using hf
      by_cases hv : pyLower (pySuffix e.name) ∈ VIDEO_SUFFIXES
      · have ht : pyLower (pySuffix e.name) ∉ THUMBNAIL_SUFFIXES := by
          simp only [VIDEO_SUFFIXES, List.mem_singleton] at hv
          simp only [THUMBNAIL_SUFFIXES, List.mem_singleton, hv]
          decide
        simp [classify, hf, hf', hv, ht]
      · by_cases ht : pyLower (pySuffix e.name) ∈ THUMBNAIL_SUFFIXES
        · simp [classify, hf, hf', hv, ht]
        · simp [classify, hf, hf', hv, ht]
  · intro c
    rw [crawl, crawl_foldl_get]
    have hinit : (DefaultDictSL.mk []).get (categoryName c) = [] := rfl
    rw [hinit, List.nil_append]
    refine congrArg _ (List.filter_congr ?_)
    intro e _
    by_cases h : classify e = c
    · have : categoryName (classify e) = categoryName c := by rw [h]
      simp [h, this]
    · have hne : ¬ (categoryName (classify e) = categoryName c) :=
        fun hh => h (categoryName_inj _ _ hh)
    
      simp [h, hne]

/-- C10: reading any key from the mapping returned by `crawl` is total:
the result is always a list — the names of the entries classified under
that key in directory order — and in particular it is the empty list (not
a missing-key error) for a category with no matching entries, e.g. the key
`video` in a directory containing no video files, or any string that is
not a category name at all. -/
theorem crawl_get_never_fails (entries : List DirEntry) (k : String) :
    (crawl entries).get k
      = (entries.filter
          (fun e => decide (categoryName (classify e) = k))).map
          DirEntry.name := by
  rw [crawl, crawl_foldl_get]
  rfl

/-- Filesystem model used by the concatenation orchestrator: an association
list from path strings to file contents in which later writes shadow
earlier entries.  Directory structure is not part of the state: the
`target_directory.mkdir` call in `concatenate_bulk` affects directories
only and no verified property observes it. -/
abbrev FS := List (String × String)

/-- Current content of a path, if the file exists. -/
def fsLookup : FS → String → Option String
  | [], _ => none
  | (p, c) :: rest, q => if p = q then some c else fsLookup rest q

/-- Model of `Path.exists()` on the file map. -/
def fileExists (fs : FS) (p : String) : Bool := (fsLookup fs p).isSome

/-- Effect of writing a file. -/
def fsWrite (fs : FS) (p c : String) : FS := (p, c) :: fs

/-- Abstract model of invoking an external concatenation binary: its
filesystem effect given the ordered input paths and the target output
path.  The source runs `subprocess.run` and never inspects the returned
exit status, so the effect on the file map is the only observable. -/
abbrev Exec := List String → String → FS → FS

/-- Embedding of the `ConcatBackend` enumeration of `concattools.py`. -/
inductive ConcatBackend
  | MP4MERGE
  | FFMPEG
  deriving DecidableEq, Repr

/-- Model of the enum value lookup `ConcatBackend(value)` performed in
`gpmerger.main`: the two member values are `mp4merge` and `ffmpeg`; any
other identifier raises `ValueError`, modelled as `Except.error`. -/
def ConcatBackend.ofString (s : String) : Except String ConcatBackend :=
  if s = "mp4merge" then .ok .MP4MERGE
  else if s = "ffmpeg" then .ok .FFMPEG
  else .error (s ++ " is not a valid ConcatBackend")

/-- Playlist manifest written by `concatenate_ffmpeg`: one line
`file '<path>'` per input path (the `\x27` escapes denote the single
quotes of the Python f-string). -/
def manifestContent (paths : List String) : String :=
  String.join (paths.map (fun p => "file \x27" ++ p ++ "\x27\n"))

/-- Embedding of `concatenate_ffmpeg` from `concattools.py`: the playlist
manifest is written to a fresh temporary file whose OS-chosen name is the
parameter `tmpName`, then the external ffmpeg binary is invoked on it.
`tempfile.NamedTemporaryFile` is opened with `delete=False`, so leaving the
`with` block only closes the handle, and no removal of the manifest file is
performed anywhere in the function: the returned filesystem is exactly the
state left by the external invocation. -/
def concatenate_ffmpeg (exec : Exec) (tmpName : String) (paths : List String)
    (target : String) (fs : FS) : FS :=
  exec paths target (fsWrite fs tmpName (manifestContent paths))

/-- Result of `concatenate_bulk`: the final filesystem, the produced-paths
list `targets`, and the trace of backend invocations (input paths and
target of each call) in order.  The elapsed wall-clock duration that the
Python function also returns is real time and is not modelled. -/
structure BulkResult where
  fs : FS
  targets : List String
  calls : List (List String × String)
  deriving DecidableEq, Repr

/-- Output path derived for a recording number:
`target_directory / f'concatenated-{filenumber}.mp4'`. -/
def targetPath (dir num : String) : String :=
  dir ++ "/concatenated-" ++ num ++ ".mp4"

/-- One iteration of the loop of `concatenate_bulk`: if the derived target
exists and `force` is not set, the group is skipped (`continue`); otherwise
the target is appended to the produced list and the backend is invoked on
the group's file paths.  In the source the append (line 151) precedes the
invocation (line 153) and the invocation's result is only logged, so the
produced list never depends on the invocation's outcome. -/
def bulkStep (exec : Exec) (dir : String) (force : Bool) (st : BulkResult)
    (g : String × List FileInfo) : BulkResult :=
  let target := targetPath dir g.1
  if fileExists st.fs target && !force then st
  else
    { fs := exec (g.2.map FileInfo.path) target st.fs,
      targets := st.targets ++ [target],
      calls := st.calls ++ [(g.2.map FileInfo.path, target)] }

/-- Embedding of `concatenate_bulk` from `concattools.py`: the accumulated
groups are processed strictly in mapping iteration order by folding the
loop body over them. -/
def concatenate_bulk (exec : Exec) (groups : List (String × List FileInfo))
    (dir : String) (force : Bool) (fs : FS) : BulkResult :=
  groups.foldl (bulkStep exec dir force) ⟨fs, [], []⟩

/-- Embedding of the backend-selection prefix of `gpmerger.main` on the
auto-confirmed path: the identifier is converted with
`ConcatBackend(args.backend)` (line 111) before the source directory is
crawled and before any record is accumulated or any group processed; a
raised exception is modelled as `Except.error` paired with the unchanged
filesystem.  Crawling and parsing only read the source directory, so the
parsed records are taken as input here. -/
def gpmerger_main (backendStr : String) (fileinfos : List FileInfo)
    (targetDir : String) (force : Bool) (exec : Exec) (fs : FS) :
    FS × Except String (List String) :=
  match ConcatBackend.ofString backendStr with
  | .error e => (fs, .error e)
  | .ok _ =>
    match accumulate_filenumberwise fileinfos with
    | none => (fs, .error "invalid literal for int() with base 10")
    | some groups =>
      let r := concatenate_bulk exec groups targetDir force fs
      (r.fs, .ok r.targets)

theorem bulk_foldl_preserves (exec : Exec)
    (hpres : ∀ ps t fs p, fileExists fs p = true →
      fileExists (exec ps t fs) p = true)
    (dir : String) (force : Bool) (groups : List (String × List FileInfo))
    (st : BulkResult) (p : String) (h : fileExists st.fs p = true) :
    fileExists ((groups.foldl (bulkStep exec dir force) st).fs) p = true := by
  induction groups generalizing st with
  | nil => simpa using h
  | cons g rest ih =>
    simp only [List.foldl_cons]
    apply ih
    simp only [bulkStep]
    split
    · exact h
    · exact hpres _ _ _ _ h

theorem bulk_foldl_creates (exec : Exec)
    (hcreate : ∀ ps t fs, fileExists (exec ps t fs) t = true)
    (hpres : ∀ ps t fs p, fileExists fs p = true →
      fileExists (exec ps t fs) p = true)
    (dir : String) (force : Bool) (groups : List (String × List FileInfo))
    (st : BulkResult) :
    ∀ g ∈ groups,
      fileExists ((groups.foldl (bulkStep exec dir force) st).fs)
        (targetPath dir g.1) = true := by
  induction groups generalizing st with
  | nil => simp
  | cons g0 rest ih =>
    intro g hg
    rw [List.mem_cons] at hg
    rcases hg with rfl | hg
    · simp only [List.foldl_cons]
      apply bulk_foldl_preserves exec hpres
      simp only [bulkStep]
      split
      · next hcond =>
        simp only [Bool.and_eq_true] at hcond
        exact hcond.1
      · exact hcreate _ _ _
    · simp only [List.foldl_cons]
      exact ih _ g hg

theorem bulk_foldl_all_skip (exec : Exec) (dir : String)
    (groups : List (String × List FileInfo)) (st : BulkResult)
    (h : ∀ g ∈ groups, fileExists st.fs (targetPath dir g.1) = true) :
    groups.foldl (bulkStep exec dir false) st = st := by
  induction groups with
  | nil => rfl
  | cons g rest ih =>
    simp only [List.foldl_cons]
    have hstep : bulkStep exec dir false st g = st := by
      simp only [bulkStep]
      rw [h g (List.mem_cons_self g rest)]
      rfl
    rw [hstep]
    exact ih (fun g' hg' => h g' (List.mem_cons_of_mem _ hg'))

theorem targetPath_inj (dir a b : String)
    (h : targetPath dir a = targetPath dir b) : a = b := by
  unfold targetPath at h
  have hd := congrArg String.data h
  simp only [String.data_append] at hd
  exact String.ext (List.append_cancel_left (List.append_cancel_right hd))

theorem bulkStep_targets (exec : Exec) (dir : String) (force : Bool)
    (st : BulkResult) (g : String × List FileInfo) :
    (bulkStep exec dir force st g).targets = st.targets ∨
    (bulkStep exec dir force st g).targets
      = st.targets ++ [targetPath dir g.1] := by
  simp only [bulkStep]
  split
  · exact Or.inl rfl
  · exact Or.inr rfl

theorem bulkStep_calls (exec : Exec) (dir : String) (force : Bool)
    (st : BulkResult) (g : String × List FileInfo) :
    (bulkStep exec dir force st g).calls = st.calls ∨
    (bulkStep exec dir force st g).calls
      = st.calls ++ [(g.2.map FileInfo.path, targetPath dir g.1)] := by
  simp only [bulkStep]
  split
  · exact Or.inl rfl
  · exact Or.inr rfl

theorem bulk_foldl_provenance (exec : Exec) (dir : String) (force : Bool)
    (groups : List (String × List FileInfo)) (st : BulkResult) :
    (∀ t ∈ (groups.foldl (bulkStep exec dir force) st).targets,
      t ∈ st.targets ∨ ∃ g ∈ groups, t = targetPath dir g.1) ∧
    (∀ c ∈ (groups.foldl (bulkStep exec dir force) st).calls,
      c ∈ st.calls ∨ ∃ g ∈ groups, c.2 = targetPath dir g.1) := by
  induction groups generalizing st with
  | nil => exact ⟨fun t ht => Or.inl ht, fun c hc => Or.inl hc⟩
  | cons g0 rest ih =>
    constructor
    · intro t ht
      simp only [List.foldl_cons] at ht
      rcases (ih (bulkStep exec dir force st g0)).1 t ht with h | ⟨g, hg, hteq⟩
      · rcases bulkStep_targets exec dir force st g0 with he | he
        · rw [he] at h
          exact Or.inl h
        · rw [he, List.mem_append] at h
          rcases h with h | h
          · exact Or.inl h
          · exact Or.inr ⟨g0, List.mem_cons_self g0 rest, by simpa using h⟩
      · exact Or.inr ⟨g, List.mem_cons_of_mem g0 hg, hteq⟩
    · intro c hc
      simp only [List.foldl_cons] at hc
      rcases (ih (bulkStep exec dir force st g0)).2 c hc with h | ⟨g, hg, hceq⟩
      · rcases bulkStep_calls exec dir force st g0 with he | he
        · rw [he] at h
          exact Or.inl h
        · rw [he, List.mem_append] at h
          rcases h with h | h
          · exact Or.inl h
          · refine Or.inr ⟨g0, List.mem_cons_self g0 rest, ?_⟩
            have : c = (g0.2.map FileInfo.path, targetPath dir g0.1) := by
              simpa using h
            rw [this]
      · exact Or.inr ⟨g, List.mem_cons_of_mem g0 hg, hceq⟩

/-- C3: running `concatenate_bulk` a second time with `overwrite=false` on
the same groups and target directory, for any backend whose invocation
creates its target file and never removes existing files, skips every
group: the second run returns an empty produced-paths list, records no
backend invocation, and returns the first run's filesystem unchanged — so
every file produced by the first run is left exactly as it was. -/
theorem concatenate_bulk_idempotent (exec : Exec)
    (hcreate : ∀ ps t fs, fileExists (exec ps t fs) t = true)
    (hpres : ∀ ps t fs p, fileExists fs p = true →
      fileExists (exec ps t fs) p = true)
    (groups : List (String × List FileInfo)) (dir : String) (fs : FS) :
    concatenate_bulk exec groups dir false
        (concatenate_bulk exec groups dir false fs).fs
      = ⟨(concatenate_bulk exec groups dir false fs).fs, [], []⟩ := by
  unfold concatenate_bulk
  apply bulk_foldl_all_skip
  intro g hg
  exact bulk_foldl_creates exec hcreate hpres dir false groups ⟨fs, [], []⟩ g hg

/-- Backend model that writes the target file, the effect of a successful
concatenation. -/
def execWrite : Exec := fun _ target fs => fsWrite fs target "mp4data"

theorem execWrite_creates :
    ∀ ps t fs, fileExists (execWrite ps t fs) t = true := by
  intro ps t fs
  simp [execWrite, fsWrite, fileExists, fsLookup]

theorem execWrite_preserves :
    ∀ ps t fs p, fileExists fs p = true →
      fileExists (execWrite ps t fs) p = true := by
  intro ps t fs p h
  by_cases ht : t = p
  · simp [execWrite, fsWrite, fileExists, fsLookup, ht]
  · simpa [execWrite, fsWrite, fileExists, fsLookup, ht] using h

/-- Concrete record for recording number 0042, used in witnesses. -/
def fiA : FileInfo :=
  { pfix := "G", codec := "H", chapter := "01", number := "0042",
    suffix := ".MP4", path := "GH010042.MP4" }

/-- Concrete record for recording number 0099, used in witnesses. -/
def fiB : FileInfo :=
  { pfix := "G", codec := "H", chapter := "01", number := "0099",
    suffix := ".MP4", path := "GH010099.MP4" }

/-- Witness for C3 with the successful-backend model and one group. -/
theorem concatenate_bulk_idempotent_witness :
    concatenate_bulk execWrite [("0042", [fiA])] "out" false
        (concatenate_bulk execWrite [("0042", [fiA])] "out" false []).fs
      = ⟨(concatenate_bulk execWrite [("0042", [fiA])] "out" false []).fs,
         [], []⟩ :=
  concatenate_bulk_idempotent execWrite execWrite_creates execWrite_preserves
    [("0042", [fiA])] "out" []

/-- C4: with `overwrite=false`, a group whose derived target already exists
is skipped and the batch continues unaffected: the run equals the run over
the remaining groups with the skipped group removed (so a pre-existing
target never aborts the batch), the skipped group's target is excluded from
the produced-paths list, and no backend invocation is made for it.  The
backend is only assumed never to remove existing files, and the other
groups carry different recording numbers, as the distinct dict keys of
`accumulate_filenumberwise` guarantee. -/
theorem concatenate_bulk_skips_existing (exec : Exec)
    (hpres : ∀ ps t fs p, fileExists fs p = true →
      fileExists (exec ps t fs) p = true)
    (pre post : List (String × List FileInfo)) (g : String × List FileInfo)
    (dir : String) (fs : FS)
    (hex : fileExists fs (targetPath dir g.1) = true)
    (hkey : ∀ g' ∈ pre ++ post, g'.1 ≠ g.1) :
    concatenate_bulk exec (pre ++ g :: post) dir false fs
      = concatenate_bulk exec (pre ++ post) dir false fs ∧
    targetPath dir g.1
      ∉ (concatenate_bulk exec (pre ++ g :: post) dir false fs).targets ∧
    ∀ call ∈ (concatenate_bulk exec (pre ++ g :: post) dir false fs).calls,
      call.2 ≠ targetPath dir g.1 := by
  have hskip : bulkStep exec dir false
      (pre.foldl (bulkStep exec dir false) ⟨fs, [], []⟩) g
      = pre.foldl (bulkStep exec dir false) ⟨fs, [], []⟩ := by
    simp only [bulkStep]
    rw [bulk_foldl_preserves exec hpres dir false pre ⟨fs, [], []⟩ _ hex]
    rfl
  have heq : concatenate_bulk exec (pre ++ g :: post) dir false fs
      = concatenate_bulk exec (pre ++ post) dir false fs := by
    unfold concatenate_bulk
    rw [List.foldl_append, List.foldl_append, List.foldl_cons, hskip]
  refine ⟨heq, ?_, ?_⟩
  · rw [heq]
    intro hmem
    rcases (bulk_foldl_provenance exec dir false (pre ++ post)
        ⟨fs, [], []⟩).1 _ hmem with h | ⟨g', hg', hteq⟩
    · simp at h
    · exact hkey g' hg' (targetPath_inj dir g'.1 g.1 hteq.symm)
  · intro call hc
    rw [heq] at hc
    rcases (bulk_foldl_provenance exec dir false (pre ++ post)
        ⟨fs, [], []⟩).2 call hc with h | ⟨g', hg', hceq⟩
    · simp at h
    · intro hcall
      exact hkey g' hg' (targetPath_inj dir g'.1 g.1 (hceq.symm.trans hcall))

/-- Witness for C4: the target for number 0042 pre-exists, the group for
0099 follows; the 0042 group is skipped, the run equals the run without it,
and neither the produced list nor the call trace mentions its target. -/
theorem concatenate_bulk_skips_existing_witness :
    (fileExists [(targetPath "out" "0042", "old")]
        (targetPath "out" "0042") = true ∧
      ∀ g' ∈ ([] : List (String × List FileInfo)) ++ [("0099", [fiB])],
        g'.1 ≠ ("0042", [fiA]).1) ∧
    (concatenate_bulk execWrite ([] ++ ("0042", [fiA]) :: [("0099", [fiB])])
        "out" false [(targetPath "out" "0042", "old")]
      = concatenate_bulk execWrite ([] ++ [("0099", [fiB])]) "out" false
          [(targetPath "out" "0042", "old")] ∧
    targetPath "out" ("0042", [fiA]).1
      ∉ (concatenate_bulk execWrite
          ([] ++ ("0042", [fiA]) :: [("0099", [fiB])]) "out" false
          [(targetPath "out" "0042", "old")]).targets ∧
    ∀ call ∈ (concatenate_bulk execWrite
        ([] ++ ("0042", [fiA]) :: [("0099", [fiB])]) "out" false
        [(targetPath "out" "0042", "old")]).calls,
      call.2 ≠ targetPath "out" ("0042", [fiA]).1) :=
  ⟨⟨by decide, by decide⟩,
   concatenate_bulk_skips_existing execWrite execWrite_preserves
     [] [("0099", [fiB])] ("0042", [fiA]) "out"
     [(targetPath "out" "0042", "old")] (by decide) (by decide)⟩

/-- Backend model of a failing invocation: the external process exits with
a non-zero status and produces no output file, so the filesystem is
unchanged.  `concatenate_bulk` never inspects the exit status. -/
def execFail : Exec := fun _ _ fs => fs

theorem bulk_foldl_execFail (dir : String)
    (groups : List (String × List FileInfo)) (st : BulkResult) :
    groups.foldl (bulkStep execFail dir false) st
      = ⟨st.fs,
         st.targets
           ++ (groups.filter
                (fun g => !fileExists st.fs (targetPath dir g.1))).map
              (fun g => targetPath dir g.1),
         st.calls
           ++ (groups.filter
                (fun g => !fileExists st.fs (targetPath dir g.1))).map
              (fun g => (g.2.map FileInfo.path, targetPath dir g.1))⟩ := by
  induction groups generalizing st with
  | nil => simp
  | cons g rest ih =>
    by_cases h : fileExists st.fs (targetPath dir g.1) = true
    · have hstep : bulkStep execFail dir false st g = st := by
        simp only [bulkStep]
        rw [h]
        rfl
      simp only [List.foldl_cons, List.filter_cons]
      rw [hstep, ih]
      simp [h]
    · have hstep : bulkStep execFail dir false st g
          = ⟨st.fs, st.targets ++ [targetPath dir g.1],
             st.calls ++ [(g.2.map FileInfo.path, targetPath dir g.1)]⟩ := by
        simp only [bulkStep, execFail]
        rw [Bool.not_eq_true] at h
        rw [h]
        rfl
      simp only [List.foldl_cons, List.filter_cons]
      rw [hstep, ih]
      simp [h, List.append_assoc]

/-- C9: the produced-paths list of `concatenate_bulk` is filled
independently of the backend invocations' outcomes — in the source the
append (line 151) runs before the invocation (line 153) and the result of
the invocation is never inspected.  With a backend whose every invocation
fails and produces no output file, the produced list still contains
exactly the derived targets of all non-skipped groups, one entry per
recorded backend invocation. -/
theorem concatenate_bulk_produced_despite_failure
    (groups : List (String × List FileInfo)) (dir : String) (fs : FS) :
    (concatenate_bulk execFail groups dir false fs).targets
      = (groups.filter
          (fun g => !fileExists fs (targetPath dir g.1))).map
          (fun g => targetPath dir g.1) ∧
    (concatenate_bulk execFail groups dir false fs).targets
      = ((concatenate_bulk execFail groups dir false fs).calls).map
          Prod.snd := by
  unfold concatenate_bulk
  rw [bulk_foldl_execFail]
  constructor
  · simp
  · simp [List.map_map]

/-- C5 counterexample: the claim that the ffmpeg backend's temporary
playlist manifest is removed after use is false on the code: the file is
created with `delete=False` and never unlinked, so after a concrete
invocation (here one that fails and changes nothing else) the manifest
file still exists with the written playlist content. -/
theorem concatenate_ffmpeg_manifest_cex :
    fileExists
        (concatenate_ffmpeg execFail "/tmp/playlist0" ["a.mp4", "b.mp4"]
          "out/concatenated-0042.mp4" [])
        "/tmp/playlist0" = true ∧
    fsLookup
        (concatenate_ffmpeg execFail "/tmp/playlist0" ["a.mp4", "b.mp4"]
          "out/concatenated-0042.mp4" [])
        "/tmp/playlist0"
      = some "file \x27a.mp4\x27\nfile \x27b.mp4\x27\n" := by
  constructor
  · rfl
  · rfl

/-- C5 amended: for every invocation of the ffmpeg backend wrapper the
temporary playlist manifest file is created and written, but it is NOT
removed after use: `NamedTemporaryFile` is opened with `delete=False` and
no unlink is ever performed, so the manifest file persists after the call
returns, whether the external invocation succeeds or fails — for any
external-process effect that does not remove existing files. -/
theorem concatenate_ffmpeg_manifest_persists (exec : Exec)
    (hpres : ∀ ps t fs p, fileExists fs p = true →
      fileExists (exec ps t fs) p = true)
    (tmpName : String) (paths : List String) (target : String) (fs : FS) :
    fileExists (concatenate_ffmpeg exec tmpName paths target fs) tmpName
      = true := by
  unfold concatenate_ffmpeg
  apply hpres
  simp [fsWrite, fileExists, fsLookup]

/-- Witness for the amended C5 with the successful-backend model. -/
theorem concatenate_ffmpeg_manifest_persists_witness :
    fileExists
        (concatenate_ffmpeg execWrite "/tmp/playlist1" ["a.mp4"]
          "out/concatenated-0042.mp4" [])
        "/tmp/playlist1" = true :=
  concatenate_ffmpeg_manifest_persists execWrite execWrite_preserves
    "/tmp/playlist1" ["a.mp4"] "out/concatenated-0042.mp4" []

/-- C7: selecting a backend identifier outside the enumerated set
`{mp4merge, ffmpeg}` fails at selection time with the enum's `ValueError`
(`... is not a valid ConcatBackend`), before any group processing starts
and before any filesystem mutation: the pipeline returns the error
together with the filesystem unchanged, and no produced-paths list
exists. -/
theorem invalid_backend_rejected_before_processing (s : String)
    (h1 : s ≠ "mp4merge") (h2 : s ≠ "ffmpeg") (fileinfos : List FileInfo)
    (targetDir : String) (force : Bool) (exec : Exec) (fs : FS) :
    gpmerger_main s fileinfos targetDir force exec fs
      = (fs, Except.error (s ++ " is not a valid ConcatBackend")) := by
  unfold gpmerger_main ConcatBackend.ofString
  simp [h1, h2]

/-- Witness for C7 at the identifier `bogus`. -/
theorem invalid_backend_rejected_witness :
    ("bogus" ≠ "mp4merge" ∧ "bogus" ≠ "ffmpeg") ∧
    gpmerger_main "bogus" [fiA] "out" false execFail
        [("keep.mp4", "data")]
      = ([("keep.mp4", "data")],
         Except.error ("bogus" ++ " is not a valid ConcatBackend")) :=
  ⟨⟨by decide, by decide⟩,
   invalid_backend_rejected_before_processing "bogus" (by decide) (by decide)
     [fiA] "out" false execFail [("keep.mp4", "data")]⟩
